import Mathlib

/-!
Verification development for the cryptonestle-backend real-time layer.

Shallow embedding of `src/services/PriceService.ts`,
`src/services/WebSocketService.ts` and the `NotificationService`
(`createNotification`) into Lean 4, with theorems settling the spec claims.

JavaScript numbers are modelled as exact rationals (ℚ); timestamps in
milliseconds as ℤ; JS `Map` / `Set` objects as association lists / lists
with unique keys, with insertion-order-preserving update semantics
matching `Map.set` / `Set.add` / `Set.delete`.
-/

namespace Cryptonestle

/-- JS `String.prototype.toLowerCase()`, modelled character-wise (all
symbols and currency codes in this program are ASCII). -/
def jsToLower (s : String) : String := ⟨s.data.map Char.toLower⟩

/-! ## Data model: `CryptoPrice`, cache entries (PriceService.ts lines 4-13, 35) -/

structure CryptoPrice where
  symbol : String
  name : String
  price : ℚ
  priceChange24h : ℚ
  priceChangePercentage24h : ℚ
  marketCap : ℚ
  volume24h : ℚ
  lastUpdated : ℤ
deriving Repr, DecidableEq

structure CacheEntry where
  data : CryptoPrice
  expiry : ℤ
deriving Repr, DecidableEq

/-- The `cache : Map<string, { data; expiry }>` of `PriceService`. -/
abbrev PriceCache := List (String × CacheEntry)

/-- `CACHE_DURATION = 60000` ms (1 minute). -/
def CACHE_DURATION : ℤ := 60000

/-- JS `Map.set`: overwrite in place when the key is present (keys are
unique in a JS `Map`), otherwise append at the end. -/
def cacheSet : PriceCache → String → CacheEntry → PriceCache
  | [], k, v => [(k, v)]
  | (k', v') :: rest, k, v =>
      if k' == k then (k, v) :: rest else (k', v') :: cacheSet rest k v

/-- `getCachedPrices(includeExpired)` (PriceService.ts lines 294-305):
iterate the cache in insertion order, keeping entries with
`includeExpired || cached.expiry > now`, and return their `data`. -/
def getCachedPrices (cache : PriceCache) (now : ℤ) (includeExpired : Bool) :
    List CryptoPrice :=
  (cache.filter (fun p => includeExpired || decide (p.2.expiry > now))).map (·.2.data)

/-! ## Price Source Adapter (PriceService.ts lines 199-213, 51-77)

The two upstream HTTP calls are modelled by their outcomes: an
`Except String (List CryptoPrice)` is the (already normalized) result of
`fetchFromCoinGecko` resp. `fetchFromCoinMarketCap` — `.error` covers a
network error, a non-success status or a malformed payload (all of which
surface as a thrown exception in the source). -/

/-- `fetchPricesFromAPI`: try the primary provider, fall back to the
secondary, and if both fail throw `'Unable to fetch cryptocurrency prices'`. -/
def fetchPricesFromAPI (primary secondary : Except String (List CryptoPrice)) :
    Except String (List CryptoPrice) :=
  match primary with
  | .ok prices => .ok prices
  | .error _ =>
      match secondary with
      | .ok prices => .ok prices
      | .error _ => .error "Unable to fetch cryptocurrency prices"

/-- The cache write-back loop of `getCurrentPrices` (lines 63-68): each
fetched price is stored under `price.symbol.toLowerCase()` with expiry
`now + CACHE_DURATION`. -/
def putPrices (cache : PriceCache) (prices : List CryptoPrice) (now : ℤ) : PriceCache :=
  prices.foldl (fun c p => cacheSet c (jsToLower p.symbol) ⟨p, now + CACHE_DURATION⟩) cache

/-- `getCurrentPrices` (lines 51-77), with the cache threaded explicitly:
return fresh cached prices if any; otherwise fetch (primary then
fallback) and cache the result; if the fetch throws, return the cached
data including expired entries and leave the cache unmodified. -/
def getCurrentPrices (cache : PriceCache) (now : ℤ)
    (primary secondary : Except String (List CryptoPrice)) :
    List CryptoPrice × PriceCache :=
  let cachedPrices := getCachedPrices cache now false
  if cachedPrices.isEmpty then
    match fetchPricesFromAPI primary secondary with
    | .ok prices => (prices, putPrices cache prices now)
    | .error _ => (getCachedPrices cache now true, cache)
  else
    (cachedPrices, cache)

/-! ## Portfolio Valuator (PriceService.ts lines 95-162) -/

/-- Prisma `InvestmentStatus` values used by the query filter. -/
inductive InvStatus where
  | PENDING | ACTIVE | COMPLETED | CANCELLED | FAILED
deriving Repr, DecidableEq

structure Investment where
  currency : String
  amount : ℚ
  status : InvStatus
  expectedReturn : Option ℚ
  actualReturn : Option ℚ
deriving Repr, DecidableEq

structure BreakdownEntry where
  amount : ℚ
  value : ℚ
  price : ℚ
deriving Repr, DecidableEq

structure PortfolioValue where
  totalValue : ℚ
  totalInvested : ℚ
  totalProfit : ℚ
  profitPercentage : ℚ
  breakdown : List (String × BreakdownEntry)
deriving Repr, DecidableEq

/-- JS truthiness of a numeric-or-null field: `null`/`undefined` and `0`
are falsy. -/
def truthy : Option ℚ → Bool
  | none => false
  | some q => !(q == 0)

/-- `prices.find(p => p.symbol.toLowerCase() === cur)?.price` -/
def findPrice (prices : List CryptoPrice) (cur : String) : Option ℚ :=
  (prices.find? (fun p => jsToLower p.symbol == cur)).map (·.price)

/-- The prisma filter `status: { in: ['ACTIVE', 'COMPLETED'] }`. -/
def qualifies (inv : Investment) : Bool :=
  inv.status == .ACTIVE || inv.status == .COMPLETED

/-- One iteration of the `for (const investment of investments)` loop,
acting on the accumulator (totalInvested, totalCurrentValue, breakdown). -/
def valuationStep (prices : List CryptoPrice) (ethPrice : ℚ)
    (acc : ℚ × ℚ × List (String × BreakdownEntry)) (inv : Investment) :
    ℚ × ℚ × List (String × BreakdownEntry) :=
  let currency := jsToLower inv.currency
  let amount := inv.amount
  let currentPrice :=
    if currency == "eth" then ethPrice else (findPrice prices currency).getD 0
  let ti := acc.1 + amount * ethPrice
  let tcv :=
    if inv.status == .COMPLETED && truthy inv.actualReturn then
      acc.2.1 + (inv.actualReturn.getD 0) * ethPrice
    else if inv.status == .ACTIVE then
      let expectedReturn := if truthy inv.expectedReturn then inv.expectedReturn.getD 0 else amount
      acc.2.1 + expectedReturn * ethPrice
    else
      acc.2.1
  let bd0 :=
    if acc.2.2.any (·.1 == currency) then acc.2.2
    else acc.2.2 ++ [(currency, ⟨0, 0, currentPrice⟩)]
  let bd := bd0.map (fun p =>
    if p.1 == currency then
      (p.1, ⟨p.2.amount + amount, p.2.value + amount * currentPrice, p.2.price⟩)
    else p)
  (ti, tcv, bd)

/-- `getPortfolioValue` (lines 95-162).  The two fallible collaborators —
the prisma `investment.findMany` read and `getCurrentPrices` — are
modelled by their outcomes; the surrounding `try/catch` turns any failure
into the degenerate all-zero valuation. -/
def getPortfolioValue (investmentsResult : Except String (List Investment))
    (pricesResult : Except String (List CryptoPrice)) : PortfolioValue :=
  match investmentsResult, pricesResult with
  | .ok investmentsAll, .ok prices =>
      let investments := investmentsAll.filter qualifies
      let ethPrice := (findPrice prices "eth").getD 0
      let acc := investments.foldl (valuationStep prices ethPrice) (0, 0, [])
      let totalInvested := acc.1
      let totalCurrentValue := acc.2.1
      let totalProfit := totalCurrentValue - totalInvested
      let profitPercentage :=
        if totalInvested > 0 then (totalProfit / totalInvested) * 100 else 0
      { totalValue := totalCurrentValue
        totalInvested := totalInvested
        totalProfit := totalProfit
        profitPercentage := profitPercentage
        breakdown := acc.2.2 }
  | _, _ =>
      { totalValue := 0, totalInvested := 0, totalProfit := 0
        profitPercentage := 0, breakdown := [] }

/-- The USD-denominated "return" term the loop adds to
`totalCurrentValue` for one investment (the multiplier of `ethPrice` in
lines 126-132): the actual return when completed-and-truthy, the
(truthy-or-amount) expected return when active, else nothing. -/
def returnTerm (inv : Investment) : ℚ :=
  if inv.status == .COMPLETED && truthy inv.actualReturn then inv.actualReturn.getD 0
  else if inv.status == .ACTIVE then
    (if truthy inv.expectedReturn then inv.expectedReturn.getD 0 else inv.amount)
  else 0

/-! ## Connection Registry (WebSocketService.ts)

A live socket is a `Session`: its id plus `socket.data.userId` (set by a
successful `authenticate`).  The registry collections are the fields of
`WebSocketService` (lines 33-36): `connectedUsers : Map<userId, Set<socketId>>`,
`priceSubscribers : Set<socketId>`, `portfolioSubscribers` and
`transactionSubscribers : Map<socketId, userId>`.  JS `Map`/`Set` are
modelled as unique-key association lists / duplicate-free lists with
insertion-order update semantics. -/

structure Session where
  sid : String
  userId : Option String
deriving Repr, DecidableEq

structure RegistryState where
  sessions : List Session
  connectedUsers : List (String × List String)
  priceSubscribers : List String
  portfolioSubscribers : List (String × String)
  transactionSubscribers : List (String × String)
deriving Repr, DecidableEq

/-- JS `Set.add`: insert at the end unless already present. -/
def setAdd (l : List String) (s : String) : List String :=
  if s ∈ l then l else l ++ [s]

/-- JS `Map.set` on a `Map<string, string>`. -/
def mapSet : List (String × String) → String → String → List (String × String)
  | [], k, v => [(k, v)]
  | (k', v') :: rest, k, v =>
      if k' == k then (k, v) :: rest else (k', v') :: mapSet rest k v

/-- `addUserConnection(userId, socketId)` (lines 171-176): create the
user's socket set if absent, then `Set.add` the socket id. -/
def addUserConnection : List (String × List String) → String → String →
    List (String × List String)
  | [], uid, sid => [(uid, [sid])]
  | (u, b) :: rest, uid, sid =>
      if u == uid then (u, setAdd b sid) :: rest
      else (u, b) :: addUserConnection rest uid sid

/-- The `connectedUsers` part of `handleDisconnection` (lines 184-190):
if the user has an entry, delete the socket id from it, and drop the
entry when it becomes empty. -/
def removeUserConnection : List (String × List String) → String → String →
    List (String × List String)
  | [], _, _ => []
  | (u, b) :: rest, uid, sid =>
      if u == uid then
        let b' := b.filter (fun s => !(s == sid))
        if b'.isEmpty then rest else (u, b') :: rest
      else (u, b) :: removeUserConnection rest uid sid

/-- `handleDisconnection(socket)` (lines 181-196): remove the socket from
the user-connection index (keyed by `socket.data.userId`, which may be
absent) and from all three subscription collections. -/
def handleDisconnection (userId : Option String) (sid : String)
    (st : RegistryState) : RegistryState :=
  { st with
    connectedUsers :=
      match userId with
      | some uid => removeUserConnection st.connectedUsers uid sid
      | none => st.connectedUsers
    priceSubscribers := st.priceSubscribers.filter (fun s => !(s == sid))
    portfolioSubscribers := st.portfolioSubscribers.filter (fun p => !(p.1 == sid))
    transactionSubscribers := st.transactionSubscribers.filter (fun p => !(p.1 == sid)) }

def findSession (l : List Session) (sid : String) : Option Session :=
  l.find? (fun s => s.sid == sid)

/-- The `subscribe-portfolio` handler (lines 109-119): allowed only when
`socket.data.userId === userId`; otherwise emit
`'Unauthorized portfolio subscription'` and change nothing. -/
def subscribePortfolioHandler (st : RegistryState) (sid : String)
    (requestedUid : String) : RegistryState × Option String :=
  let authUid := (findSession st.sessions sid).bind (·.userId)
  if authUid == some requestedUid then
    ({ st with portfolioSubscribers := mapSet st.portfolioSubscribers sid requestedUid },
     none)
  else
    (st, some "Unauthorized portfolio subscription")

/-- The `subscribe-transactions` handler (lines 127-134). -/
def subscribeTransactionsHandler (st : RegistryState) (sid : String)
    (requestedUid : String) : RegistryState × Option String :=
  let authUid := (findSession st.sessions sid).bind (·.userId)
  if authUid == some requestedUid then
    ({ st with transactionSubscribers := mapSet st.transactionSubscribers sid requestedUid },
     none)
  else
    (st, some "Unauthorized transaction subscription")

/-- The client-visible operations on the registry. -/
inductive Op where
  | connect (sid : String)
  | authenticate (sid uid : String)
  | subscribePrices (sid : String)
  | unsubscribePrices (sid : String)
  | subscribePortfolio (sid uid : String)
  | unsubscribePortfolio (sid : String)
  | subscribeTransactions (sid uid : String)
  | unsubscribeTransactions (sid : String)
  | disconnect (sid : String)
deriving Repr, DecidableEq

/-- One step of the registry, following the socket event handlers
(WebSocketService.ts lines 61-152).  `connect` is the socket.io
`connection` event; `authenticate sid uid` is a *successful*
authentication (`socket.data.userId = userId; addUserConnection(...)`) —
note the source puts no guard on re-authentication; `disconnect` removes
the socket and runs `handleDisconnection` with the socket's current
`data.userId`. -/
def exec (st : RegistryState) : Op → RegistryState
  | .connect sid =>
      { st with sessions := st.sessions ++ [⟨sid, none⟩] }
  | .authenticate sid uid =>
      { st with
        sessions := st.sessions.map (fun s =>
          if s.sid == sid then { s with userId := some uid } else s)
        connectedUsers := addUserConnection st.connectedUsers uid sid }
  | .subscribePrices sid =>
      { st with priceSubscribers := setAdd st.priceSubscribers sid }
  | .unsubscribePrices sid =>
      { st with priceSubscribers := st.priceSubscribers.filter (fun s => !(s == sid)) }
  | .subscribePortfolio sid uid => (subscribePortfolioHandler st sid uid).1
  | .unsubscribePortfolio sid =>
      { st with portfolioSubscribers := st.portfolioSubscribers.filter (fun p => !(p.1 == sid)) }
  | .subscribeTransactions sid uid => (subscribeTransactionsHandler st sid uid).1
  | .unsubscribeTransactions sid =>
      { st with transactionSubscribers := st.transactionSubscribers.filter (fun p => !(p.1 == sid)) }
  | .disconnect sid =>
      let st' := handleDisconnection ((findSession st.sessions sid).bind (·.userId)) sid st
      { st' with sessions := st'.sessions.filter (fun s => !(s.sid == sid)) }

def execSeq (st : RegistryState) (ops : List Op) : RegistryState :=
  ops.foldl exec st

def initState : RegistryState := ⟨[], [], [], [], []⟩

/-- `getConnectedUsersCount()` (lines 366-368): `connectedUsers.size`. -/
def getConnectedUsersCount (st : RegistryState) : Nat :=
  st.connectedUsers.length

/-- `isUserConnected(userId)` (lines 380-382): `connectedUsers.has(userId)`. -/
def isUserConnected (st : RegistryState) (uid : String) : Bool :=
  st.connectedUsers.any (fun p => p.1 == uid)

/-- The distinct authenticated user ids having at least one live session. -/
def liveAuthedUsers (st : RegistryState) : List String :=
  (st.sessions.filterMap (·.userId)).dedup

/-- Transport-layer side conditions under which an operation can occur:
socket.io hands `connection` a fresh socket id, and the `authenticate`
handler fires on a live socket.  The extra condition `s.userId = none`
(no re-authentication of an already-authenticated session) is the
restriction the registry-consistency theorem needs. -/
def wfOp (st : RegistryState) : Op → Bool
  | .connect sid => !(st.sessions.any (fun s => s.sid == sid))
  | .authenticate sid _ =>
      match findSession st.sessions sid with
      | some s => s.userId == none
      | none => false
  | _ => true

def wfSeq : RegistryState → List Op → Bool
  | _, [] => true
  | st, op :: rest => wfOp st op && wfSeq (exec st op) rest

/-! ## Notification Dispatcher (`NotificationService.createNotification`)

`createNotification` persists the notification row first, then — only
inside the same `try`, i.e. only when persistence did not throw — runs
the best-effort delivery step (`sendEmailNotification`, itself fully
caught so it never throws) when `sendEmail` is set, and finally logs an
info line; a thrown persistence error is caught and logged.  The prisma
write is modelled by its outcome. -/

structure NotificationData where
  userId : String
  title : String
  message : String
  ntype : String
  sendEmail : Bool
deriving Repr, DecidableEq

structure NotifOutcome where
  db : List NotificationData
  deliveryAttempted : Bool
  loggedErrors : List String
  loggedInfo : List String
deriving Repr, DecidableEq

def createNotification (db : List NotificationData)
    (persistResult : Except String Unit) (nd : NotificationData) : NotifOutcome :=
  match persistResult with
  | .error e =>
      { db := db
        deliveryAttempted := false
        loggedErrors := ["Error creating notification: " ++ e]
        loggedInfo := [] }
  | .ok _ =>
      { db := db ++ [nd]
        deliveryAttempted := nd.sendEmail
        loggedErrors := []
        loggedInfo := ["Notification created for user: " ++ nd.userId] }

/-- The consistency invariant tying `connectedUsers` to the live
sessions: unique session ids, unique index keys, nonempty duplicate-free
buckets, and a socket id sits in user `u`'s bucket exactly when a live
session with that id is authenticated as `u`. -/
structure RegInv (st : RegistryState) : Prop where
  sidsNodup : (st.sessions.map (·.sid)).Nodup
  keysNodup : (st.connectedUsers.map Prod.fst).Nodup
  bucketsOk : ∀ p ∈ st.connectedUsers, p.2 ≠ [] ∧ p.2.Nodup
  indexIff : ∀ u s, (∃ b, (u, b) ∈ st.connectedUsers ∧ s ∈ b) ↔
      (∃ q ∈ st.sessions, q.sid = s ∧ q.userId = some u)

/-- A sequence that re-authenticates an authenticated session as a
different user, then disconnects. -/
def reAuthOps : List Op :=
  [.connect "s1", .authenticate "s1" "A", .authenticate "s1" "B", .disconnect "s1"]

/-- A well-formed demonstration sequence: two clients connect,
authenticate, subscribe, and the first disconnects. -/
def demoOps : List Op :=
  [.connect "s1", .authenticate "s1" "A", .subscribePrices "s1",
   .subscribePortfolio "s1" "A", .connect "s2", .authenticate "s2" "B",
   .subscribeTransactions "s2" "B", .disconnect "s1"]

/-! # Theorems -/

/-- Claim C3: if the primary price provider fails but the secondary
succeeds, the fetch returns the secondary's normalized records and (on
the fetch path of `getCurrentPrices`, i.e. when the cache holds no fresh
entry) the cache is updated with them; if both providers fail, the fetch
fails with the `'Unable to fetch cryptocurrency prices'` error and the
cache is left unmodified. -/
theorem C3_provider_fallback (cache : PriceCache) (now : ℤ) (e e' : String)
    (ps : List CryptoPrice) (hfresh : getCachedPrices cache now false = []) :
    fetchPricesFromAPI (.error e) (.ok ps) = .ok ps ∧
    getCurrentPrices cache now (.error e) (.ok ps) = (ps, putPrices cache ps now) ∧
    fetchPricesFromAPI (.error e) (.error e') = .error "Unable to fetch cryptocurrency prices" ∧
    getCurrentPrices cache now (.error e) (.error e') = (getCachedPrices cache now true, cache) := by
  refine ⟨rfl, ?_, rfl, ?_⟩ <;> simp [getCurrentPrices, fetchPricesFromAPI, hfresh]

/-- Witness for C3 at the empty cache. -/
theorem C3_provider_fallback_witness :
    fetchPricesFromAPI (.error "a") (.ok []) = .ok ([] : List CryptoPrice) ∧
    getCurrentPrices [] 0 (.error "a") (.ok []) = ([], putPrices [] [] 0) ∧
    fetchPricesFromAPI (.error "a") (.error "b") =
      (.error "Unable to fetch cryptocurrency prices" : Except String (List CryptoPrice)) ∧
    getCurrentPrices [] 0 (.error "a") (.error "b") = (getCachedPrices [] 0 true, []) :=
  C3_provider_fallback [] 0 "a" "b" [] rfl

/-- Claim C10 (implicit): `getPortfolioValue` never propagates an error —
whenever the persistence read or the price retrieval fails, it returns
the degenerate all-zero valuation. -/
theorem C10_valuation_never_throws (ir : Except String (List Investment))
    (pr : Except String (List CryptoPrice))
    (h : ir.isOk = false ∨ pr.isOk = false) :
    getPortfolioValue ir pr =
      { totalValue := 0, totalInvested := 0, totalProfit := 0,
        profitPercentage := 0, breakdown := [] } := by
  cases ir <;> cases pr <;> simp_all [getPortfolioValue, Except.isOk, Except.toBool]

/-- Witness for C10: a failing persistence read. -/
theorem C10_valuation_never_throws_witness :
    getPortfolioValue (.error "db down") (.ok []) =
      { totalValue := 0, totalInvested := 0, totalProfit := 0,
        profitPercentage := 0, breakdown := [] } :=
  C10_valuation_never_throws _ _ (Or.inl rfl)

/-- Claim C6: on a session whose authenticated user id is absent, the
portfolio and transactions subscribe handlers emit an authorization
error to that session and leave the state (in particular both
subscription maps) unchanged. -/
theorem C6_unauthorized_subscribe (st : RegistryState) (sid ruid : String)
    (h : (findSession st.sessions sid).bind (·.userId) = none) :
    subscribePortfolioHandler st sid ruid = (st, some "Unauthorized portfolio subscription") ∧
    subscribeTransactionsHandler st sid ruid = (st, some "Unauthorized transaction subscription") := by
  simp [subscribePortfolioHandler, subscribeTransactionsHandler, h]

/-- Witness for C6: a live but unauthenticated session. -/
theorem C6_unauthorized_subscribe_witness :
    subscribePortfolioHandler ⟨[⟨"s1", none⟩], [], [], [], []⟩ "s1" "u1" =
      (⟨[⟨"s1", none⟩], [], [], [], []⟩, some "Unauthorized portfolio subscription") ∧
    subscribeTransactionsHandler ⟨[⟨"s1", none⟩], [], [], [], []⟩ "s1" "u1" =
      (⟨[⟨"s1", none⟩], [], [], [], []⟩, some "Unauthorized transaction subscription") :=
  C6_unauthorized_subscribe ⟨[⟨"s1", none⟩], [], [], [], []⟩ "s1" "u1" rfl

/-- Claim C8: in `createNotification`, persistence happens first — a
persistence failure yields no delivery attempt and a logged error (so it
is reported, not silently treated as success), and the best-effort
delivery step runs only if persistence succeeded. -/
theorem C8_notification_persist_first (db : List NotificationData)
    (nd : NotificationData) (e : String) :
    (createNotification db (.error e) nd =
      { db := db, deliveryAttempted := false,
        loggedErrors := ["Error creating notification: " ++ e], loggedInfo := [] }) ∧
    ∀ pr : Except String Unit,
      (createNotification db pr nd).deliveryAttempted = true → pr.isOk = true := by
  refine ⟨rfl, ?_⟩
  intro pr h
  cases pr with
  | ok _ => rfl
  | error _ => simp [createNotification] at h

/-- Witness for C8: a failed persistence and a successful one. -/
theorem C8_notification_persist_first_witness :
    createNotification [] (.error "db down") ⟨"u1", "t", "m", "SYSTEM", true⟩ =
      { db := [], deliveryAttempted := false,
        loggedErrors := ["Error creating notification: db down"], loggedInfo := [] } ∧
    (Except.ok () : Except String Unit).isOk = true :=
  ⟨(C8_notification_persist_first [] ⟨"u1", "t", "m", "SYSTEM", true⟩ "db down").1,
   (C8_notification_persist_first [] ⟨"u1", "t", "m", "SYSTEM", true⟩ "db down").2 (.ok ()) rfl⟩

/-- Claim C1 counterexample: on exactly the spec's input
(one active ETH investment, amount 1, expectedReturn 0.05, ETH price
2000) the code returns totalValue 100 — not 2100 — so totalValue,
totalProfit and profitPercentage all miss the claimed values by far more
than the 1e-6 tolerance (totalInvested = 2000 does hold). -/
theorem C1_valuation_example_counterexample :
    (getPortfolioValue
      (.ok [⟨"ETH", 1, .ACTIVE, some (1/20), none⟩])
      (.ok [⟨"ETH", "Ethereum", 2000, 0, 0, 0, 0, 0⟩])).totalInvested = 2000 ∧
    (getPortfolioValue
      (.ok [⟨"ETH", 1, .ACTIVE, some (1/20), none⟩])
      (.ok [⟨"ETH", "Ethereum", 2000, 0, 0, 0, 0, 0⟩])).totalValue = 100 ∧
    ¬ |(getPortfolioValue
      (.ok [⟨"ETH", 1, .ACTIVE, some (1/20), none⟩])
      (.ok [⟨"ETH", "Ethereum", 2000, 0, 0, 0, 0, 0⟩])).totalValue - 2100| ≤ 1/1000000 ∧
    ¬ |(getPortfolioValue
      (.ok [⟨"ETH", 1, .ACTIVE, some (1/20), none⟩])
      (.ok [⟨"ETH", "Ethereum", 2000, 0, 0, 0, 0, 0⟩])).totalProfit - 100| ≤ 1/1000000 ∧
    ¬ |(getPortfolioValue
      (.ok [⟨"ETH", 1, .ACTIVE, some (1/20), none⟩])
      (.ok [⟨"ETH", "Ethereum", 2000, 0, 0, 0, 0, 0⟩])).profitPercentage - 5| ≤ 1/1000000 := by
  norm_num [getPortfolioValue, valuationStep, findPrice, qualifies, truthy,
    (show jsToLower "ETH" = "eth" from rfl)]

/-- Claim C1 as amended: on the spec's input the valuation is
totalInvested = 2000, totalValue = 100 (the expected return alone priced
at 2000 — the principal is not added), totalProfit = -1900,
profitPercentage = -95, with breakdown eth ↦ (amount 1, value 2000,
price 2000). -/
theorem C1_valuation_example_amended :
    getPortfolioValue
      (.ok [⟨"ETH", 1, .ACTIVE, some (1/20), none⟩])
      (.ok [⟨"ETH", "Ethereum", 2000, 0, 0, 0, 0, 0⟩]) =
    ⟨100, 2000, -1900, -95, [("eth", ⟨1, 2000, 2000⟩)]⟩ := by
  norm_num [getPortfolioValue, valuationStep, findPrice, qualifies, truthy,
    (show jsToLower "ETH" = "eth" from rfl)]

/-- Claim C2 counterexample: a single active BTC investment of amount 1
with BTC priced 40000 and ETH priced 2000 is accumulated into
totalInvested as 1 * 2000 (ETH's price), not 1 * 40000 (its own
currency's price) as the claim states. -/
theorem C2_per_currency_pricing_counterexample :
    (getPortfolioValue
      (.ok [⟨"BTC", 1, .ACTIVE, some (1/20), none⟩])
      (.ok [⟨"ETH", "Ethereum", 2000, 0, 0, 0, 0, 0⟩,
            ⟨"BTC", "Bitcoin", 40000, 0, 0, 0, 0, 0⟩])).totalInvested = 1 * 2000 ∧
    (getPortfolioValue
      (.ok [⟨"BTC", 1, .ACTIVE, some (1/20), none⟩])
      (.ok [⟨"ETH", "Ethereum", 2000, 0, 0, 0, 0, 0⟩,
            ⟨"BTC", "Bitcoin", 40000, 0, 0, 0, 0, 0⟩])).totalInvested ≠ 1 * 40000 := by
  norm_num [getPortfolioValue, valuationStep, findPrice, qualifies, truthy,
    (show jsToLower "BTC" = "btc" from rfl), (show jsToLower "ETH" = "eth" from rfl)]

/-- `valuationStep` adds `amount * ethPrice` to the invested total. -/
theorem valuationStep_fst (prices : List CryptoPrice) (e : ℚ)
    (acc : ℚ × ℚ × List (String × BreakdownEntry)) (inv : Investment) :
    (valuationStep prices e acc inv).1 = acc.1 + inv.amount * e := rfl

/-- `valuationStep` adds `returnTerm inv * ethPrice` to the current-value
total. -/
theorem valuationStep_snd_fst (prices : List CryptoPrice) (e : ℚ)
    (acc : ℚ × ℚ × List (String × BreakdownEntry)) (inv : Investment) :
    (valuationStep prices e acc inv).2.1 = acc.2.1 + returnTerm inv * e := by
  simp only [valuationStep, returnTerm]
  split_ifs <;> ring

theorem foldl_valuationStep_fst (prices : List CryptoPrice) (e : ℚ)
    (l : List Investment) (acc : ℚ × ℚ × List (String × BreakdownEntry)) :
    (l.foldl (valuationStep prices e) acc).1 = acc.1 + (l.map (·.amount)).sum * e := by
  induction l generalizing acc with
  | nil => simp
  | cons i t ih =>
      simp only [List.foldl_cons, List.map_cons, List.sum_cons, ih, valuationStep_fst]
      ring

theorem foldl_valuationStep_snd (prices : List CryptoPrice) (e : ℚ)
    (l : List Investment) (acc : ℚ × ℚ × List (String × BreakdownEntry)) :
    (l.foldl (valuationStep prices e) acc).2.1 = acc.2.1 + (l.map returnTerm).sum * e := by
  induction l generalizing acc with
  | nil => simp
  | cons i t ih =>
      simp only [List.foldl_cons, List.map_cons, List.sum_cons, ih, valuationStep_snd_fst]
      ring

theorem totalInvested_eq (invs : List Investment) (prices : List CryptoPrice) :
    (getPortfolioValue (.ok invs) (.ok prices)).totalInvested =
      ((invs.filter qualifies).map (·.amount)).sum * ((findPrice prices "eth").getD 0) := by
  simp [getPortfolioValue, foldl_valuationStep_fst]

theorem totalValue_eq (invs : List Investment) (prices : List CryptoPrice) :
    (getPortfolioValue (.ok invs) (.ok prices)).totalValue =
      ((invs.filter qualifies).map returnTerm).sum * ((findPrice prices "eth").getD 0) := by
  simp [getPortfolioValue, foldl_valuationStep_snd]

theorem totalProfit_eq (invs : List Investment) (prices : List CryptoPrice) :
    (getPortfolioValue (.ok invs) (.ok prices)).totalProfit =
      (getPortfolioValue (.ok invs) (.ok prices)).totalValue -
        (getPortfolioValue (.ok invs) (.ok prices)).totalInvested := rfl

theorem profitPercentage_eq (invs : List Investment) (prices : List CryptoPrice) :
    (getPortfolioValue (.ok invs) (.ok prices)).profitPercentage =
      if 0 < (getPortfolioValue (.ok invs) (.ok prices)).totalInvested then
        ((getPortfolioValue (.ok invs) (.ok prices)).totalValue -
          (getPortfolioValue (.ok invs) (.ok prices)).totalInvested) /
            (getPortfolioValue (.ok invs) (.ok prices)).totalInvested * 100
      else 0 := rfl

/-- Claim C2 as amended: for every investment list and price list, the
invested and current-value totals are accumulated at ETH's unit price
regardless of each investment's own currency — totalInvested is the sum
of qualifying amounts times ETH's price, and totalValue the sum of the
per-investment return terms times ETH's price. -/
theorem C2_totals_eth_priced (invs : List Investment) (prices : List CryptoPrice) :
    (getPortfolioValue (.ok invs) (.ok prices)).totalInvested =
      ((invs.filter qualifies).map (·.amount)).sum * ((findPrice prices "eth").getD 0) ∧
    (getPortfolioValue (.ok invs) (.ok prices)).totalValue =
      ((invs.filter qualifies).map returnTerm).sum * ((findPrice prices "eth").getD 0) :=
  ⟨totalInvested_eq invs prices, totalValue_eq invs prices⟩

/-- Claim C9: profitPercentage is 0 whenever totalInvested is 0 (in
particular when no investment qualifies), and equals
100 * totalProfit / totalInvested whenever totalInvested is positive —
never a division error. -/
theorem C9_zero_invested (invs : List Investment) (prices : List CryptoPrice) :
    ((getPortfolioValue (.ok invs) (.ok prices)).totalInvested = 0 →
      (getPortfolioValue (.ok invs) (.ok prices)).profitPercentage = 0) ∧
    (0 < (getPortfolioValue (.ok invs) (.ok prices)).totalInvested →
      (getPortfolioValue (.ok invs) (.ok prices)).profitPercentage =
        100 * (getPortfolioValue (.ok invs) (.ok prices)).totalProfit /
          (getPortfolioValue (.ok invs) (.ok prices)).totalInvested) ∧
    ((∀ i ∈ invs, qualifies i = false) →
      (getPortfolioValue (.ok invs) (.ok prices)).totalInvested = 0 ∧
      (getPortfolioValue (.ok invs) (.ok prices)).profitPercentage = 0) := by
  refine ⟨?_, ?_, ?_⟩
  · intro h
    rw [profitPercentage_eq, h]
    simp
  · intro h
    rw [profitPercentage_eq, if_pos h, totalProfit_eq]
    field_simp
    ring
  · intro h
    have hfil : invs.filter qualifies = [] :=
      List.filter_eq_nil_iff.mpr (fun a ha => by simp [h a ha])
    have hti : (getPortfolioValue (.ok invs) (.ok prices)).totalInvested = 0 := by
      rw [totalInvested_eq, hfil]
      simp
    refine ⟨hti, ?_⟩
    rw [profitPercentage_eq, hti]
    simp

/-- Witness for C9 at the empty investment list. -/
theorem C9_zero_invested_witness :
    (getPortfolioValue (.ok []) (.ok [])).totalInvested = 0 ∧
    (getPortfolioValue (.ok []) (.ok [])).profitPercentage = 0 :=
  (C9_zero_invested [] []).2.2 (by simp)

theorem getCachedPrices_cons (k : String) (v : CacheEntry) (t : PriceCache)
    (now : ℤ) (ie : Bool) :
    getCachedPrices ((k, v) :: t) now ie =
      if (ie || decide (v.expiry > now)) = true then v.data :: getCachedPrices t now ie
      else getCachedPrices t now ie := by
  by_cases h : (ie || decide (v.expiry > now)) = true <;>
    simp [getCachedPrices, List.filter_cons, h]

theorem mem_getCachedPrices {c : PriceCache} {k : String} {v : CacheEntry}
    (hm : (k, v) ∈ c) {now : ℤ} {ie : Bool}
    (hp : (ie || decide (v.expiry > now)) = true) :
    v.data ∈ getCachedPrices c now ie := by
  unfold getCachedPrices
  exact List.mem_map_of_mem _ (List.mem_filter.mpr ⟨hm, hp⟩)

theorem cacheSet_self_mem (c : PriceCache) (k : String) (v : CacheEntry) :
    (k, v) ∈ cacheSet c k v := by
  induction c with
  | nil => simp [cacheSet]
  | cons p t ih =>
      rcases p with ⟨k', v'⟩
      by_cases h : (k' == k) = true <;> simp [cacheSet, h, ih]

theorem filter_bne_key_eq_self {α : Type} (l : List (String × α)) (a : String)
    (h : a ∉ l.map Prod.fst) : l.filter (fun p => !(p.1 == a)) = l := by
  induction l with
  | nil => rfl
  | cons p t ih =>
      simp only [List.map_cons, List.mem_cons] at h
      push_neg at h
      have h1 : (p.1 == a) = false := by
        simp [beq_eq_false_iff_ne]
        exact fun hq => h.1 hq.symm
      simp [List.filter_cons, h1, ih h.2]

theorem getCachedPrices_cacheSet_stale (c : PriceCache) (k : String) (v : CacheEntry)
    (now : ℤ) (hnd : (c.map Prod.fst).Nodup) (hexp : v.expiry ≤ now) :
    getCachedPrices (cacheSet c k v) now false =
      getCachedPrices (c.filter (fun p => !(p.1 == k))) now false := by
  have hvfail : (false || decide (v.expiry > now)) = false := by
    simp
    omega
  induction c with
  | nil =>
      simp [cacheSet, getCachedPrices, hvfail]
      omega
  | cons p t ih =>
      rcases p with ⟨k', v'⟩
      simp only [List.map_cons, List.nodup_cons] at hnd
      by_cases h : (k' == k) = true
      · have hk : k' = k := by simpa using h
        subst hk
        have ht : t.filter (fun p => !(p.1 == k')) = t :=
          filter_bne_key_eq_self t k' hnd.1
        simp [cacheSet, List.filter_cons, getCachedPrices_cons, hvfail, ht]
      · have hb : (k' == k) = false := by simpa using h
        simp [cacheSet, hb, List.filter_cons, getCachedPrices_cons, ih hnd.2]

/-- Claim C4: after the cache is updated with a record for a symbol at
time t (expiry t + CACHE_DURATION), a fresh read at any tq < t + TTL
contains that record unchanged; at tq ≥ t + TTL the fresh read equals
the read of the cache with the symbol's entry removed (the symbol is
excluded), while the any-freshness read still contains the record. -/
theorem C4_cache_ttl (c : PriceCache) (sym : String) (r : CryptoPrice) (t tq : ℤ)
    (hnd : (c.map Prod.fst).Nodup) :
    (tq < t + CACHE_DURATION →
      r ∈ getCachedPrices (cacheSet c sym ⟨r, t + CACHE_DURATION⟩) tq false) ∧
    (t + CACHE_DURATION ≤ tq →
      getCachedPrices (cacheSet c sym ⟨r, t + CACHE_DURATION⟩) tq false =
        getCachedPrices (c.filter (fun p => !(p.1 == sym))) tq false) ∧
    r ∈ getCachedPrices (cacheSet c sym ⟨r, t + CACHE_DURATION⟩) tq true := by
  refine ⟨?_, ?_, ?_⟩
  · intro h
    exact mem_getCachedPrices (cacheSet_self_mem c sym _) (by simp; omega)
  · intro h
    exact getCachedPrices_cacheSet_stale c sym _ tq hnd h
  · exact mem_getCachedPrices (cacheSet_self_mem c sym _) (by simp)

theorem C4_cache_ttl_witness :
    ((0 : ℤ) < 0 + CACHE_DURATION ∧
      ⟨"ETH", "Ethereum", 2000, 0, 0, 0, 0, 0⟩ ∈
        getCachedPrices (cacheSet [] "eth" ⟨⟨"ETH", "Ethereum", 2000, 0, 0, 0, 0, 0⟩, 0 + CACHE_DURATION⟩) 0 false) ∧
    ((0 : ℤ) + CACHE_DURATION ≤ 60000 ∧
      getCachedPrices (cacheSet [] "eth" ⟨⟨"ETH", "Ethereum", 2000, 0, 0, 0, 0, 0⟩, 0 + CACHE_DURATION⟩) 60000 false =
        getCachedPrices (([] : PriceCache).filter (fun p => !(p.1 == "eth"))) 60000 false) ∧
    ⟨"ETH", "Ethereum", 2000, 0, 0, 0, 0, 0⟩ ∈
      getCachedPrices (cacheSet [] "eth" ⟨⟨"ETH", "Ethereum", 2000, 0, 0, 0, 0, 0⟩, 0 + CACHE_DURATION⟩) 60000 true :=
  ⟨⟨by norm_num [CACHE_DURATION],
    (C4_cache_ttl [] "eth" ⟨"ETH", "Ethereum", 2000, 0, 0, 0, 0, 0⟩ 0 0 (by simp)).1
      (by norm_num [CACHE_DURATION])⟩,
   ⟨by norm_num [CACHE_DURATION],
    ((C4_cache_ttl [] "eth" ⟨"ETH", "Ethereum", 2000, 0, 0, 0, 0, 0⟩ 0 60000 (by simp)).2.1
      (by norm_num [CACHE_DURATION]))⟩,
   (C4_cache_ttl [] "eth" ⟨"ETH", "Ethereum", 2000, 0, 0, 0, 0, 0⟩ 0 60000 (by simp)).2.2⟩

theorem filter_idem {α : Type} (p : α → Bool) (l : List α) :
    (l.filter p).filter p = l.filter p := by
  induction l with
  | nil => rfl
  | cons a t ih => by_cases h : p a <;> simp [List.filter_cons, h, ih]

theorem removeUserConnection_key_absent (cu : List (String × List String))
    (uid sid : String) (h : uid ∉ cu.map Prod.fst) :
    removeUserConnection cu uid sid = cu := by
  induction cu with
  | nil => rfl
  | cons p t ih =>
      simp only [List.map_cons, List.mem_cons] at h
      push_neg at h
      have hb : (p.1 == uid) = false := by
        simp [beq_eq_false_iff_ne]
        exact fun hq => h.1 hq.symm
      rcases p with ⟨u, b⟩
      simp only [removeUserConnection, hb, Bool.false_eq_true, if_false]
      rw [ih h.2]

theorem removeUserConnection_idem (cu : List (String × List String))
    (uid sid : String) (hnd : (cu.map Prod.fst).Nodup) :
    removeUserConnection (removeUserConnection cu uid sid) uid sid =
      removeUserConnection cu uid sid := by
  induction cu with
  | nil => rfl
  | cons p t ih =>
      rcases p with ⟨u, b⟩
      simp only [List.map_cons, List.nodup_cons] at hnd
      by_cases h : (u == uid) = true
      · have hu : u = uid := by simpa using h
        subst hu
        simp only [removeUserConnection, h, if_true]
        by_cases he : (b.filter (fun s => !(s == sid))).isEmpty = true
        · simp only [he, if_true]
          exact removeUserConnection_key_absent t u sid hnd.1
        · simp only [he, Bool.false_eq_true, if_false, removeUserConnection, h, if_true,
            filter_idem, he]
      · simp only [removeUserConnection, h, Bool.false_eq_true, if_false]
        rw [ih hnd.2]

/-- Claim C7: `handleDisconnection` is idempotent — running the
disconnect cleanup a second time for the same connection id (with the
socket's remembered `data.userId`) is a no-op on the user-connection
index and all three subscription collections. -/
theorem C7_disconnect_idempotent (st : RegistryState) (um : Option String)
    (sid : String) (hnd : (st.connectedUsers.map Prod.fst).Nodup) :
    handleDisconnection um sid (handleDisconnection um sid st) =
      handleDisconnection um sid st := by
  cases um with
  | none => simp [handleDisconnection, filter_idem]
  | some uid => simp [handleDisconnection, filter_idem, removeUserConnection_idem _ _ _ hnd]

/-- Witness for C7: one authenticated, fully subscribed session. -/
theorem C7_disconnect_idempotent_witness :
    handleDisconnection (some "A") "s1"
        (handleDisconnection (some "A") "s1"
          ⟨[⟨"s1", some "A"⟩], [("A", ["s1"])], ["s1"], [("s1", "A")], [("s1", "A")]⟩) =
      handleDisconnection (some "A") "s1"
        ⟨[⟨"s1", some "A"⟩], [("A", ["s1"])], ["s1"], [("s1", "A")], [("s1", "A")]⟩ :=
  C7_disconnect_idempotent
    ⟨[⟨"s1", some "A"⟩], [("A", ["s1"])], ["s1"], [("s1", "A")], [("s1", "A")]⟩
    (some "A") "s1" (by simp)

theorem session_unique {l : List Session} (hnd : (l.map (·.sid)).Nodup)
    {a b : Session} (ha : a ∈ l) (hb : b ∈ l) (h : a.sid = b.sid) : a = b :=
  List.inj_on_of_nodup_map hnd ha hb h

theorem findSession_mem {l : List Session} {sid : String} {s : Session}
    (h : findSession l sid = some s) : s ∈ l ∧ s.sid = sid := by
  have h1 := List.mem_of_find?_eq_some h
  have h2 := List.find?_some h
  exact ⟨h1, by simpa using h2⟩

theorem findSession_none {l : List Session} {sid : String}
    (h : findSession l sid = none) : ∀ s ∈ l, s.sid ≠ sid := by
  intro s hs
  have := List.find?_eq_none.mp h s hs
  simpa using this

theorem bucket_mem_cons (u₀ : String) (b₀ : List String)
    (t : List (String × List String)) (u x : String) :
    (∃ b, (u, b) ∈ (u₀, b₀) :: t ∧ x ∈ b) ↔
      (u = u₀ ∧ x ∈ b₀) ∨ (∃ b, (u, b) ∈ t ∧ x ∈ b) := by
  constructor
  · rintro ⟨b, hb, hx⟩
    rcases List.mem_cons.mp hb with h | h
    · obtain ⟨h1, h2⟩ := Prod.mk.injEq .. ▸ h
      exact Or.inl ⟨h1, h2 ▸ hx⟩
    · exact Or.inr ⟨b, h, hx⟩
  · rintro (⟨h1, h2⟩ | ⟨b, hb, hx⟩)
    · exact ⟨b₀, by simp [h1], h2⟩
    · exact ⟨b, List.mem_cons_of_mem _ hb, hx⟩

theorem setAdd_mem (b : List String) (s x : String) :
    x ∈ setAdd b s ↔ x ∈ b ∨ x = s := by
  unfold setAdd
  by_cases h : s ∈ b
  · simp only [if_pos h]
    constructor
    · exact Or.inl
    · rintro (hx | rfl)
      · exact hx
      · exact h
  · simp [if_neg h]

theorem addUserConnection_mem_iff (cu : List (String × List String))
    (uid sid u x : String) :
    (∃ b, (u, b) ∈ addUserConnection cu uid sid ∧ x ∈ b) ↔
      (∃ b, (u, b) ∈ cu ∧ x ∈ b) ∨ (u = uid ∧ x = sid) := by
  induction cu with
  | nil =>
      rw [show addUserConnection [] uid sid = (uid, [sid]) :: [] from rfl, bucket_mem_cons]
      simp
  | cons p t ih =>
      rcases p with ⟨u₀, b₀⟩
      by_cases h : (u₀ == uid) = true
      · have hu : u₀ = uid := by simpa using h
        subst hu
        have hstep : addUserConnection ((u₀, b₀) :: t) u₀ sid = (u₀, setAdd b₀ sid) :: t := by
          simp [addUserConnection]
        rw [hstep, bucket_mem_cons, bucket_mem_cons, setAdd_mem]
        clear ih hstep h
        generalize (∃ b, (u, b) ∈ t ∧ x ∈ b) = P
        tauto
      · have hstep : addUserConnection ((u₀, b₀) :: t) uid sid =
            (u₀, b₀) :: addUserConnection t uid sid := by
          simp [addUserConnection, h]
        rw [hstep, bucket_mem_cons, bucket_mem_cons, ih]
        clear ih hstep h
        generalize (∃ b, (u, b) ∈ t ∧ x ∈ b) = P
        tauto

theorem removeUserConnection_mem_iff (cu : List (String × List String))
    (uid sid u x : String) (hnd : (cu.map Prod.fst).Nodup) :
    (∃ b, (u, b) ∈ removeUserConnection cu uid sid ∧ x ∈ b) ↔
      (∃ b, (u, b) ∈ cu ∧ x ∈ b) ∧ ¬(u = uid ∧ x = sid) := by
  induction cu with
  | nil => simp [removeUserConnection]
  | cons p t ih =>
      rcases p with ⟨u₀, b₀⟩
      simp only [List.map_cons, List.nodup_cons] at hnd
      by_cases h : (u₀ == uid) = true
      · have hu : u₀ = uid := by simpa using h
        subst hu
        have habs : ¬ ∃ b, (u₀, b) ∈ t ∧ x ∈ b := by
          rintro ⟨b, hb, -⟩
          exact hnd.1 (List.mem_map.mpr ⟨(u₀, b), hb, rfl⟩)
        by_cases he : ((b₀.filter (fun s => !(s == sid))).isEmpty) = true
        · have hstep : removeUserConnection ((u₀, b₀) :: t) u₀ sid = t := by
            simp [removeUserConnection, he]
          have hall : ∀ y ∈ b₀, y = sid := by
            intro y hy
            by_contra hne
            have : y ∈ b₀.filter (fun s => !(s == sid)) :=
              List.mem_filter.mpr ⟨hy, by simpa using hne⟩
            rw [List.isEmpty_iff.mp he] at this
            simp at this
          rw [hstep, bucket_mem_cons]
          constructor
          · intro hP
            rcases hP with ⟨b, hb, hx⟩
            constructor
            · exact Or.inr ⟨b, hb, hx⟩
            · rintro ⟨rfl, rfl⟩
              exact habs ⟨b, hb, hx⟩
          · rintro ⟨hor, hne⟩
            rcases hor with ⟨rfl, hx⟩ | hP
            · exact absurd ⟨rfl, hall x hx⟩ hne
            · exact hP
        · have hstep : removeUserConnection ((u₀, b₀) :: t) u₀ sid =
              (u₀, b₀.filter (fun s => !(s == sid))) :: t := by
            simp only [removeUserConnection, beq_self_eq_true, if_true]
            rw [if_neg (by simpa using he)]
          rw [hstep, bucket_mem_cons, bucket_mem_cons]
          constructor
          · rintro (⟨rfl, hx⟩ | hP)
            · have hx' := List.mem_filter.mp hx
              refine ⟨Or.inl ⟨rfl, hx'.1⟩, ?_⟩
              rintro ⟨-, rfl⟩
              simp at hx'
            · refine ⟨Or.inr hP, ?_⟩
              rintro ⟨rfl, -⟩
              exact habs hP
          · rintro ⟨⟨rfl, hx⟩ | hP, hne⟩
            · refine Or.inl ⟨rfl, List.mem_filter.mpr ⟨hx, ?_⟩⟩
              simp only [Bool.not_eq_eq_eq_not, Bool.not_true, beq_eq_false_iff_ne]
              exact fun hq => hne ⟨rfl, hq⟩
            · exact Or.inr hP
      · have hu : u₀ ≠ uid := by simpa using h
        have hstep : removeUserConnection ((u₀, b₀) :: t) uid sid =
            (u₀, b₀) :: removeUserConnection t uid sid := by
          simp [removeUserConnection, h]
        rw [hstep, bucket_mem_cons, bucket_mem_cons, ih hnd.2]
        constructor
        · rintro (⟨rfl, hx⟩ | ⟨hP, hne⟩)
          · exact ⟨Or.inl ⟨rfl, hx⟩, fun hc => hu hc.1⟩
          · exact ⟨Or.inr hP, hne⟩
        · rintro ⟨⟨rfl, hx⟩ | hP, hne⟩
          · exact Or.inl ⟨rfl, hx⟩
          · exact Or.inr ⟨hP, hne⟩

theorem removeUserConnection_keys_sublist (cu : List (String × List String))
    (uid sid : String) :
    ((removeUserConnection cu uid sid).map Prod.fst).Sublist (cu.map Prod.fst) := by
  induction cu with
  | nil => simp [removeUserConnection]
  | cons p t ih =>
      rcases p with ⟨u₀, b₀⟩
      by_cases h : (u₀ == uid) = true
      · simp only [removeUserConnection, h, if_true]
        by_cases he : ((b₀.filter (fun s => !(s == sid))).isEmpty) = true
        · simp only [he, if_true, List.map_cons]
          exact (List.Sublist.refl _).cons _
        · simp only [he, Bool.false_eq_true, if_false, List.map_cons]
          exact (List.Sublist.refl _).cons₂ _
      · simp only [removeUserConnection, h, Bool.false_eq_true, if_false, List.map_cons]
        exact ih.cons₂ _

theorem removeUserConnection_bucketsOk (cu : List (String × List String))
    (uid sid : String) (h : ∀ p ∈ cu, p.2 ≠ [] ∧ p.2.Nodup) :
    ∀ p ∈ removeUserConnection cu uid sid, p.2 ≠ [] ∧ p.2.Nodup := by
  induction cu with
  | nil =>
      intro p hp
      simp [removeUserConnection] at hp
  | cons p t ih =>
      rcases p with ⟨u₀, b₀⟩
      have hhead := h (u₀, b₀) (List.mem_cons_self _ _)
      have htail : ∀ p ∈ t, p.2 ≠ [] ∧ p.2.Nodup :=
        fun p hp => h p (List.mem_cons_of_mem _ hp)
      by_cases hb : (u₀ == uid) = true
      · simp only [removeUserConnection, hb, if_true]
        by_cases he : ((b₀.filter (fun s => !(s == sid))).isEmpty) = true
        · simp only [he, if_true]
          exact htail
        · simp only [he, Bool.false_eq_true, if_false]
          intro p hp
          rcases List.mem_cons.mp hp with rfl | hp'
          · refine ⟨?_, (List.filter_sublist _).nodup hhead.2⟩
            intro hnil
            exact he (List.isEmpty_iff.mpr hnil)
          · exact htail p hp'
      · simp only [removeUserConnection, hb, Bool.false_eq_true, if_false]
        intro p hp
        rcases List.mem_cons.mp hp with rfl | hp'
        · exact hhead
        · exact ih htail p hp'

theorem addUserConnection_keys (cu : List (String × List String)) (uid sid : String) :
    (addUserConnection cu uid sid).map Prod.fst =
      if uid ∈ cu.map Prod.fst then cu.map Prod.fst else cu.map Prod.fst ++ [uid] := by
  induction cu with
  | nil => simp [addUserConnection]
  | cons p t ih =>
      rcases p with ⟨u₀, b₀⟩
      by_cases h : (u₀ == uid) = true
      · have hu : u₀ = uid := by simpa using h
        subst hu
        have hstep : addUserConnection ((u₀, b₀) :: t) u₀ sid = (u₀, setAdd b₀ sid) :: t := by
          simp only [addUserConnection, beq_self_eq_true, if_true]
        simp [hstep]
      · have hu : u₀ ≠ uid := by simpa using h
        have hu' : ¬ uid = u₀ := fun hq => hu hq.symm
        simp only [addUserConnection, h, Bool.false_eq_true, if_false, List.map_cons,
          List.mem_cons, ih]
        by_cases hin : uid ∈ t.map Prod.fst
        · simp [hin, hu']
        · simp [hin, hu']

theorem addUserConnection_keysNodup (cu : List (String × List String))
    (uid sid : String) (hnd : (cu.map Prod.fst).Nodup) :
    ((addUserConnection cu uid sid).map Prod.fst).Nodup := by
  rw [addUserConnection_keys]
  by_cases hin : uid ∈ cu.map Prod.fst
  · simpa [hin] using hnd
  · simp [hin, List.nodup_append, hnd]

theorem addUserConnection_bucketsOk (cu : List (String × List String))
    (uid sid : String) (h : ∀ p ∈ cu, p.2 ≠ [] ∧ p.2.Nodup) :
    ∀ p ∈ addUserConnection cu uid sid, p.2 ≠ [] ∧ p.2.Nodup := by
  induction cu with
  | nil =>
      intro p hp
      rcases List.mem_cons.mp hp with rfl | hp'
      · exact ⟨by simp, by simp⟩
      · simp at hp'
  | cons p t ih =>
      rcases p with ⟨u₀, b₀⟩
      have hhead := h (u₀, b₀) (List.mem_cons_self _ _)
      have htail : ∀ p ∈ t, p.2 ≠ [] ∧ p.2.Nodup :=
        fun p hp => h p (List.mem_cons_of_mem _ hp)
      by_cases hb : (u₀ == uid) = true
      · simp only [addUserConnection, hb, if_true]
        intro p hp
        rcases List.mem_cons.mp hp with rfl | hp'
        · constructor
          · unfold setAdd
            by_cases hs : sid ∈ b₀ <;> simp [hs, hhead.1]
          · unfold setAdd
            by_cases hs : sid ∈ b₀
            · simpa [hs] using hhead.2
            · simp only [hs, Bool.false_eq_true, if_false]
              simp [List.nodup_append, hhead.2, hs]
        · exact htail p hp'
      · simp only [addUserConnection, hb, Bool.false_eq_true, if_false]
        intro p hp
        rcases List.mem_cons.mp hp with rfl | hp'
        · exact hhead
        · exact ih htail p hp'

theorem authUpdate_sids (l : List Session) (sid uid : String) :
    ((l.map (fun s => if s.sid == sid then { s with userId := some uid } else s)).map (·.sid)) =
      l.map (·.sid) := by
  induction l with
  | nil => rfl
  | cons a t ih =>
      simp only [List.map_cons, ih]
      congr 1
      split <;> rfl

theorem auth_sessions_iff (l : List Session) (sid uid : String) {s₀ : Session}
    (hnd : (l.map (·.sid)).Nodup) (hf : findSession l sid = some s₀)
    (h0 : s₀.userId = none) (u x : String) :
    (∃ q ∈ l.map (fun s => if s.sid == sid then { s with userId := some uid } else s),
        q.sid = x ∧ q.userId = some u) ↔
      ((∃ q ∈ l, q.sid = x ∧ q.userId = some u) ∨ (u = uid ∧ x = sid)) := by
  obtain ⟨hs₀mem, hs₀sid⟩ := findSession_mem hf
  constructor
  · rintro ⟨q, hq, hsid, huid⟩
    rcases List.mem_map.mp hq with ⟨s₁, hs₁, rfl⟩
    by_cases hb : (s₁.sid == sid) = true
    · simp only [hb, if_true] at hsid huid
      have hx : x = sid := by
        rw [← hsid]
        simpa using hb
      have hu : u = uid := by
        simpa using huid.symm
      exact Or.inr ⟨hu, hx⟩
    · simp only [hb, Bool.false_eq_true, if_false] at hsid huid
      exact Or.inl ⟨s₁, hs₁, hsid, huid⟩
  · rintro (⟨q, hq, hsid, huid⟩ | ⟨hu, hx⟩)
    · have hqb : (q.sid == sid) = false := by
        rw [beq_eq_false_iff_ne]
        intro hqs
        have : q = s₀ := session_unique hnd hq hs₀mem (by rw [hqs, hs₀sid])
        rw [this, h0] at huid
        exact Option.noConfusion huid
      have hqq : (fun s => if s.sid == sid then { s with userId := some uid } else s) q = q := by
        simp [hqb]
      refine ⟨q, ?_, hsid, huid⟩
      have hmem := List.mem_map_of_mem
        (fun s => if s.sid == sid then { s with userId := some uid } else s) hq
      rwa [hqq] at hmem
    · refine ⟨{ s₀ with userId := some uid }, ?_, ?_, ?_⟩
      · have hb : (s₀.sid == sid) = true := by simpa using hs₀sid
        have hmem := List.mem_map_of_mem
          (fun s => if s.sid == sid then { s with userId := some uid } else s) hs₀mem
        simpa [hb] using hmem
      · rw [hx]
        exact hs₀sid
      · rw [hu]

theorem filter_sessions_iff (l : List Session) (sid u x : String) :
    (∃ q ∈ l.filter (fun s => !(s.sid == sid)), q.sid = x ∧ q.userId = some u) ↔
      ((∃ q ∈ l, q.sid = x ∧ q.userId = some u) ∧ x ≠ sid) := by
  constructor
  · rintro ⟨q, hq, hsid, huid⟩
    obtain ⟨hql, hcond⟩ := List.mem_filter.mp hq
    have : q.sid ≠ sid := by simpa using hcond
    exact ⟨⟨q, hql, hsid, huid⟩, hsid ▸ this⟩
  · rintro ⟨⟨q, hql, hsid, huid⟩, hx⟩
    refine ⟨q, List.mem_filter.mpr ⟨hql, ?_⟩, hsid, huid⟩
    simpa using hsid ▸ hx

theorem RegInv_of_same (st st' : RegistryState) (hs : st'.sessions = st.sessions)
    (hc : st'.connectedUsers = st.connectedUsers) (hinv : RegInv st) : RegInv st' := by
  obtain ⟨h1, h2, h3, h4⟩ := hinv
  refine ⟨hs ▸ h1, hc ▸ h2, ?_, ?_⟩
  · rw [hc]
    exact h3
  · intro u x
    rw [hs, hc]
    exact h4 u x

theorem subscribePortfolioHandler_sessions (st : RegistryState) (sid uid : String) :
    (subscribePortfolioHandler st sid uid).1.sessions = st.sessions := by
  by_cases h : (((findSession st.sessions sid).bind (fun q => q.userId)) == some uid) = true <;>
    simp [subscribePortfolioHandler, h]

theorem subscribePortfolioHandler_connectedUsers (st : RegistryState) (sid uid : String) :
    (subscribePortfolioHandler st sid uid).1.connectedUsers = st.connectedUsers := by
  by_cases h : (((findSession st.sessions sid).bind (fun q => q.userId)) == some uid) = true <;>
    simp [subscribePortfolioHandler, h]

theorem subscribeTransactionsHandler_sessions (st : RegistryState) (sid uid : String) :
    (subscribeTransactionsHandler st sid uid).1.sessions = st.sessions := by
  by_cases h : (((findSession st.sessions sid).bind (fun q => q.userId)) == some uid) = true <;>
    simp [subscribeTransactionsHandler, h]

theorem subscribeTransactionsHandler_connectedUsers (st : RegistryState) (sid uid : String) :
    (subscribeTransactionsHandler st sid uid).1.connectedUsers = st.connectedUsers := by
  by_cases h : (((findSession st.sessions sid).bind (fun q => q.userId)) == some uid) = true <;>
    simp [subscribeTransactionsHandler, h]

theorem exec_disconnect (st : RegistryState) (sid : String) :
    exec st (.disconnect sid) =
      { sessions := st.sessions.filter (fun s => !(s.sid == sid))
        connectedUsers :=
          match (findSession st.sessions sid).bind (fun q => q.userId) with
          | some uid => removeUserConnection st.connectedUsers uid sid
          | none => st.connectedUsers
        priceSubscribers := st.priceSubscribers.filter (fun s => !(s == sid))
        portfolioSubscribers := st.portfolioSubscribers.filter (fun p => !(p.1 == sid))
        transactionSubscribers := st.transactionSubscribers.filter (fun p => !(p.1 == sid)) } := by
  show ({ handleDisconnection ((findSession st.sessions sid).bind (fun q => q.userId)) sid st
    with sessions := _ } : RegistryState) = _
  cases (findSession st.sessions sid).bind (fun q => q.userId) <;> rfl

theorem RegInv_exec (st : RegistryState) (op : Op) (hinv : RegInv st)
    (hwf : wfOp st op = true) : RegInv (exec st op) := by
  obtain ⟨h1, h2, h3, h4⟩ := hinv
  cases op with
  | connect sid =>
      have hfresh : sid ∉ st.sessions.map (·.sid) := by
        simp only [wfOp, Bool.not_eq_eq_eq_not, Bool.not_true, List.any_eq_false] at hwf
        intro hmem
        rcases List.mem_map.mp hmem with ⟨s, hs, hsid⟩
        have := hwf s hs
        simp [hsid] at this
      refine ⟨?_, h2, h3, ?_⟩
      · show ((st.sessions ++ [({ sid := sid, userId := none } : Session)]).map (·.sid)).Nodup
        rw [List.map_append]
        simp [List.nodup_append, h1, hfresh]
      · intro u x
        show (∃ b, (u, b) ∈ st.connectedUsers ∧ x ∈ b) ↔
          ∃ q ∈ st.sessions ++ [({ sid := sid, userId := none } : Session)],
            q.sid = x ∧ q.userId = some u
        rw [h4 u x]
        constructor
        · rintro ⟨q, hq, hx, hu⟩
          exact ⟨q, List.mem_append_left _ hq, hx, hu⟩
        · rintro ⟨q, hq, hx, hu⟩
          rcases List.mem_append.mp hq with hq' | hq'
          · exact ⟨q, hq', hx, hu⟩
          · simp only [List.mem_singleton] at hq'
            subst hq'
            simp at hu
  | authenticate sid uid =>
      obtain ⟨s₀, hf, h0⟩ : ∃ s₀, findSession st.sessions sid = some s₀ ∧ s₀.userId = none := by
        simp only [wfOp] at hwf
        cases hfind : findSession st.sessions sid with
        | none =>
            rw [hfind] at hwf
            simp at hwf
        | some s =>
            rw [hfind] at hwf
            exact ⟨s, rfl, by simpa using hwf⟩
      refine ⟨?_, ?_, ?_, ?_⟩
      · show ((st.sessions.map fun s =>
            if s.sid == sid then { s with userId := some uid } else s).map (·.sid)).Nodup
        rw [authUpdate_sids]
        exact h1
      · exact addUserConnection_keysNodup _ _ _ h2
      · exact addUserConnection_bucketsOk _ _ _ h3
      · intro u x
        show (∃ b, (u, b) ∈ addUserConnection st.connectedUsers uid sid ∧ x ∈ b) ↔
          ∃ q ∈ st.sessions.map fun s =>
            if s.sid == sid then { s with userId := some uid } else s,
            q.sid = x ∧ q.userId = some u
        rw [addUserConnection_mem_iff, h4 u x,
          auth_sessions_iff st.sessions sid uid h1 hf h0 u x]
  | disconnect sid =>
      have hsessnd : ((st.sessions.filter (fun s => !(s.sid == sid))).map (·.sid)).Nodup :=
        ((List.filter_sublist _).map _).nodup h1
      rw [exec_disconnect]
      cases huid : (findSession st.sessions sid).bind (fun q => q.userId) with
      | none =>
          have hnosid : ∀ u x, (∃ q ∈ st.sessions, q.sid = x ∧ q.userId = some u) → x ≠ sid := by
            rintro u x ⟨q, hq, hqx, hqu⟩ hxs
            have hqsid : q.sid = sid := hqx.trans hxs
            cases hfs : findSession st.sessions sid with
            | none => exact findSession_none hfs q hq hqsid
            | some s₀ =>
                rw [hfs] at huid
                simp only [Option.some_bind] at huid
                have hq0 : q = s₀ :=
                  session_unique h1 hq (findSession_mem hfs).1
                    (by rw [hqsid, (findSession_mem hfs).2])
                rw [hq0, huid] at hqu
                exact Option.noConfusion hqu
          refine ⟨hsessnd, h2, h3, ?_⟩
          intro u x
          show (∃ b, (u, b) ∈ st.connectedUsers ∧ x ∈ b) ↔
            ∃ q ∈ st.sessions.filter (fun s => !(s.sid == sid)), q.sid = x ∧ q.userId = some u
          rw [h4 u x, filter_sessions_iff]
          exact ⟨fun hex => ⟨hex, hnosid u x hex⟩, fun hex => hex.1⟩
      | some uid =>
          obtain ⟨s₀, hfs, hs₀u⟩ : ∃ s₀, findSession st.sessions sid = some s₀ ∧
              s₀.userId = some uid := by
            cases hfs : findSession st.sessions sid with
            | none =>
                rw [hfs] at huid
                simp at huid
            | some s₀ =>
                rw [hfs] at huid
                exact ⟨s₀, rfl, by simpa using huid⟩
          refine ⟨hsessnd, ?_, ?_, ?_⟩
          · show ((removeUserConnection st.connectedUsers uid sid).map Prod.fst).Nodup
            exact h2.sublist (removeUserConnection_keys_sublist st.connectedUsers uid sid)
          · show ∀ p ∈ removeUserConnection st.connectedUsers uid sid, p.2 ≠ [] ∧ p.2.Nodup
            exact removeUserConnection_bucketsOk st.connectedUsers uid sid h3
          · intro u x
            show (∃ b, (u, b) ∈ removeUserConnection st.connectedUsers uid sid ∧ x ∈ b) ↔
              ∃ q ∈ st.sessions.filter (fun s => !(s.sid == sid)), q.sid = x ∧ q.userId = some u
            rw [removeUserConnection_mem_iff st.connectedUsers uid sid u x h2,
              h4 u x, filter_sessions_iff]
            constructor
            · rintro ⟨hex, hne⟩
              refine ⟨hex, ?_⟩
              intro hxs
              obtain ⟨q, hq, hqx, hqu⟩ := hex
              have hq0 : q = s₀ :=
                session_unique h1 hq (findSession_mem hfs).1
                  (by rw [hqx, hxs, (findSession_mem hfs).2])
              rw [hq0, hs₀u] at hqu
              exact hne ⟨by simpa using hqu.symm, hxs⟩
            · rintro ⟨hex, hne⟩
              exact ⟨hex, fun hc => hne hc.2⟩
  | subscribePrices sid => exact RegInv_of_same st _ rfl rfl ⟨h1, h2, h3, h4⟩
  | unsubscribePrices sid => exact RegInv_of_same st _ rfl rfl ⟨h1, h2, h3, h4⟩
  | subscribePortfolio sid uid =>
      exact RegInv_of_same st _ (subscribePortfolioHandler_sessions st sid uid)
        (subscribePortfolioHandler_connectedUsers st sid uid) ⟨h1, h2, h3, h4⟩
  | unsubscribePortfolio sid => exact RegInv_of_same st _ rfl rfl ⟨h1, h2, h3, h4⟩
  | subscribeTransactions sid uid =>
      exact RegInv_of_same st _ (subscribeTransactionsHandler_sessions st sid uid)
        (subscribeTransactionsHandler_connectedUsers st sid uid) ⟨h1, h2, h3, h4⟩
  | unsubscribeTransactions sid => exact RegInv_of_same st _ rfl rfl ⟨h1, h2, h3, h4⟩

theorem RegInv_init : RegInv initState := by
  refine ⟨?_, ?_, ?_, ?_⟩ <;> simp [initState]

theorem RegInv_execSeq (ops : List Op) (st : RegistryState) (hinv : RegInv st)
    (hwf : wfSeq st ops = true) : RegInv (execSeq st ops) := by
  induction ops generalizing st with
  | nil => exact hinv
  | cons op rest ih =>
      simp only [wfSeq, Bool.and_eq_true] at hwf
      exact ih (exec st op) (RegInv_exec st op hinv hwf.1) hwf.2

theorem registry_consistency_of_inv (st : RegistryState) (hinv : RegInv st) :
    getConnectedUsersCount st = (liveAuthedUsers st).length ∧
    ∀ u, isUserConnected st u = true ↔ ∃ q ∈ st.sessions, q.userId = some u := by
  obtain ⟨h1, h2, h3, h4⟩ := hinv
  have hmemiff : ∀ u, u ∈ st.connectedUsers.map Prod.fst ↔ u ∈ liveAuthedUsers st := by
    intro u
    rw [List.mem_map]
    unfold liveAuthedUsers
    rw [List.mem_dedup, List.mem_filterMap]
    constructor
    · rintro ⟨⟨u', b⟩, hub, rfl⟩
      obtain ⟨hne, -⟩ := h3 _ hub
      obtain ⟨x, hx⟩ := List.exists_mem_of_ne_nil _ hne
      obtain ⟨q, hq, -, hqu⟩ := (h4 u' x).mp ⟨b, hub, hx⟩
      exact ⟨q, hq, hqu⟩
    · rintro ⟨q, hq, hqu⟩
      obtain ⟨b, hub, -⟩ := (h4 u q.sid).mpr ⟨q, hq, rfl, hqu⟩
      exact ⟨(u, b), hub, rfl⟩
  constructor
  · have hnd2 : (liveAuthedUsers st).Nodup := List.nodup_dedup _
    have hlen1 : (st.connectedUsers.map Prod.fst).toFinset.card =
        (st.connectedUsers.map Prod.fst).length :=
      List.toFinset_card_of_nodup h2
    have hlen2 : (liveAuthedUsers st).toFinset.card = (liveAuthedUsers st).length :=
      List.toFinset_card_of_nodup hnd2
    have hfs : (st.connectedUsers.map Prod.fst).toFinset = (liveAuthedUsers st).toFinset := by
      ext a
      simp only [List.mem_toFinset]
      exact hmemiff a
    have hcount : getConnectedUsersCount st = (st.connectedUsers.map Prod.fst).length := by
      simp [getConnectedUsersCount]
    rw [hcount, ← hlen1, hfs, hlen2]
  · intro u
    unfold isUserConnected
    rw [List.any_eq_true]
    constructor
    · rintro ⟨⟨u', b⟩, hub, hbeq⟩
      have hu : u' = u := by simpa using hbeq
      subst hu
      obtain ⟨hne, -⟩ := h3 _ hub
      obtain ⟨x, hx⟩ := List.exists_mem_of_ne_nil _ hne
      obtain ⟨q, hq, -, hqu⟩ := (h4 u' x).mp ⟨b, hub, hx⟩
      exact ⟨q, hq, hqu⟩
    · rintro ⟨q, hq, hqu⟩
      obtain ⟨b, hub, -⟩ := (h4 u q.sid).mpr ⟨q, hq, rfl, hqu⟩
      exact ⟨(u, b), hub, by simp⟩

/-- Claim C5 as amended: for every well-formed operation sequence — fresh
connection ids, authentication only of live, not-yet-authenticated
sessions (no re-authentication) — the connected-user count equals the
number of distinct authenticated user ids with a live session, and
`isUserConnected u` holds exactly when user u has a live session. -/
theorem C5_registry_consistency (ops : List Op) (hwf : wfSeq initState ops = true) :
    getConnectedUsersCount (execSeq initState ops) =
      (liveAuthedUsers (execSeq initState ops)).length ∧
    ∀ u, isUserConnected (execSeq initState ops) u = true ↔
      ∃ q ∈ (execSeq initState ops).sessions, q.userId = some u :=
  registry_consistency_of_inv _ (RegInv_execSeq ops initState RegInv_init hwf)

/-- Witness for C5: the demonstration sequence. -/
theorem C5_registry_consistency_witness :
    (getConnectedUsersCount (execSeq initState demoOps) =
      (liveAuthedUsers (execSeq initState demoOps)).length) ∧
    (isUserConnected (execSeq initState demoOps) "B" = true ↔
      ∃ q ∈ (execSeq initState demoOps).sessions, q.userId = some "B") :=
  ⟨(C5_registry_consistency demoOps (by decide)).1,
   (C5_registry_consistency demoOps (by decide)).2 "B"⟩

/-- Claim C5 counterexample: after
connect s1, authenticate s1 A, authenticate s1 B, disconnect s1 — a
sequence the handlers accept, since the source puts no guard on
re-authentication — `getConnectedUsersCount` is 1 and
`isUserConnected "A"` is true although no live session exists at all, so
the count does not equal the number of distinct authenticated users with
a live session and `isUserConnected` is not equivalent to having one. -/
theorem C5_registry_counterexample :
    getConnectedUsersCount (execSeq initState reAuthOps) = 1 ∧
    liveAuthedUsers (execSeq initState reAuthOps) = [] ∧
    isUserConnected (execSeq initState reAuthOps) "A" = true ∧
    (execSeq initState reAuthOps).sessions = [] := by
  decide

end Cryptonestle
